import Mathlib

/-!
The zfs-snapshot tool: snapshot naming and retention selection.

A shallow embedding of the naming codec and the listing of a group (`zfs/id.go`,
`zfs/snapshot.go`), of the retention selector and duration formatter (`cmd/cleanup.go`) and
of `takeSnapshot` of the legacy command (`zfs-snapshot.go`), followed by the properties
established about them.

Modelling conventions.

* Go strings are Lean `String`s (text).  Go orders strings byte by byte; on text this is the
  lexicographic order of the code points, i.e. the order of the character lists.
* `time.Duration` is an `Int` number of nanoseconds; where the source relies on `int64`
  arithmetic the range is an explicit hypothesis or an explicit wrap.
* `time.Time` is an instant on the local time line: nanoseconds of local wall-clock time since
  0001-01-01 00:00:00 in the proleptic Gregorian calendar.  `time.Local` is taken to be a zone
  with a fixed offset from UTC, so that wall-clock time and elapsed time advance together.
* Output written with `fmt.Print*` and `log.Printf` is not part of the model.
-/

namespace ZfsSnapshot

/-! ## Strings -/

/-- Go's `a <= b` on strings. -/
def strLE (a b : String) : Prop := a.data ≤ b.data

/-- Go's `a < b` on strings. -/
def strLT (a b : String) : Prop := a.data < b.data

instance strLE.decidable : DecidableRel strLE :=
  fun a b => inferInstanceAs (Decidable (a.data ≤ b.data))

instance strLT.decidable : DecidableRel strLT :=
  fun a b => inferInstanceAs (Decidable (a.data < b.data))

deriving instance DecidableEq for Except

/-! ## Package time -/

/-- A `time.Duration`: a count of nanoseconds (an `int64` in the source). -/
abbrev Duration := Int

def Nanosecond : Duration := 1
def Second : Duration := 1000000000 * Nanosecond
def Minute : Duration := 60 * Second
def Hour : Duration := 60 * Minute

/-- Largest `time.Duration`, `1<<63 - 1`. -/
def maxDuration : Duration := 9223372036854775807

/-- A `time.Time`: nanoseconds of local wall-clock time since 0001-01-01 00:00:00. -/
structure Time where
  nanos : Int
  deriving DecidableEq, Repr

/-- `t.Add(d)`. -/
def Time.Add (t : Time) (d : Duration) : Time := ⟨t.nanos + d⟩

/-- `t.Before(u)`: the instant `t` is strictly earlier than `u`. -/
def Time.Before (t u : Time) : Bool := decide (t.nanos < u.nanos)

/-- `t.Truncate(time.Second)`: `t` without its fraction of a second. -/
def Time.truncSecond (t : Time) : Time := ⟨t.nanos - t.nanos % 1000000000⟩

/-- `isLeap` of package time. -/
def isLeap (year : Int) : Bool :=
  year % 4 == 0 && (year % 100 != 0 || year % 400 == 0)

/-- `daysBefore[m]`: days in a non-leap year before month `m+1`. -/
def daysBefore (m : Nat) : Nat :=
  [0, 31, 59, 90, 120, 151, 181, 212, 243, 273, 304, 334, 365].getD m 365

/-- `daysIn(m, year)`: number of days of month `m` (1..12) of `year`. -/
def daysIn (m : Nat) (year : Int) : Nat :=
  if m = 2 ∧ isLeap year then 29 else daysBefore m - daysBefore (m - 1)

/-- Days from 0001-01-01 to the first of January of `year` (`daysSinceEpoch`). -/
def daysSinceEpoch (year : Int) : Int :=
  let y := year - 1
  365 * y + y / 4 - y / 100 + y / 400

/-- `time.Date(year, month, day, hour, min, sec, 0, time.Local)` on fields that are in range
(month 1..12, day 1..daysIn, hour 0..23, min and sec 0..59), where no normalisation takes
place. -/
def Date (year : Int) (month day hour min sec : Nat) : Time :=
  let d : Int := daysSinceEpoch year + daysBefore (month - 1)
    + (if isLeap year ∧ month ≥ 3 then 1 else 0) + (day - 1 : Nat)
  ⟨(d * 86400 + (hour * 3600 + min * 60 + sec : Nat)) * 1000000000⟩

/-- Calendar fields of an instant. -/
structure Civil where
  year : Int
  month : Nat
  day : Nat
  hour : Nat
  min : Nat
  sec : Nat
  deriving DecidableEq, Repr

/-- Year and zero-based day of the year of a day number counted from 0001-01-01 (`absDate`):
peel off 400-year, 100-year, 4-year and 1-year cycles. -/
def yearDay (days : Int) : Int × Nat :=
  let n400 := days / 146097
  let d := (days % 146097).toNat
  let n100 := d / 36524
  let n100 := n100 - n100 / 4
  let d := d - 36524 * n100
  let n4 := d / 1461
  let d := d - 1461 * n4
  let n1 := d / 365
  let n1 := n1 - n1 / 4
  let d := d - 365 * n1
  (400 * n400 + (100 * n100 + 4 * n4 + n1 : Nat) + 1, d)

/-- Month (1..12) and day of the month of a zero-based day of the year (`absDate`). -/
def monthDay (year : Int) (yday : Nat) : Nat × Nat :=
  if isLeap year ∧ yday = 31 + 29 - 1 then (2, 29)
  else
    let day := if isLeap year ∧ yday > 31 + 29 - 1 then yday - 1 else yday
    let month := day / 31
    let fin := daysBefore (month + 1)
    if day ≥ fin then (month + 2, day - fin + 1)
    else (month + 1, day - daysBefore month + 1)

/-- Calendar fields of `t` in the local zone (`t.Date()` and `t.Clock()`). -/
def Time.civil (t : Time) : Civil :=
  let secs := t.nanos / 1000000000
  let yd := yearDay (secs / 86400)
  let md := monthDay yd.1 yd.2
  let s := (secs % 86400).toNat
  ⟨yd.1, md.1, md.2, s / 3600, s % 3600 / 60, s % 60⟩


/-- The pieces of a layout string that the two layouts of this program are made of. -/
inductive Chunk where
  | stdLongYear    -- "2006"
  | stdZeroMonth   -- "01"
  | stdZeroDay     -- "02"
  | stdHour        -- "15": hour of the day, 00..23
  | stdZeroHour12  -- "03": hour on the twelve-hour clock, 01..12
  | stdZeroMinute  -- "04"
  | stdZeroSecond  -- "05"
  deriving DecidableEq, Repr

/-- The layout `"20060102150405"` (constant `snapTimeFmt` of `cmd/cleanup.go`), cut into its
pieces as `nextStdChunk` does. -/
def snapTimeFmt : List Chunk :=
  [.stdLongYear, .stdZeroMonth, .stdZeroDay, .stdHour, .stdZeroMinute, .stdZeroSecond]

/-- The layout `"20060102030405"` (literal in `TakeSnapshot` of `zfs/snapshot.go`), cut into
its pieces as `nextStdChunk` does. -/
def takeSnapshotFmt : List Chunk :=
  [.stdLongYear, .stdZeroMonth, .stdZeroDay, .stdZeroHour12, .stdZeroMinute, .stdZeroSecond]

/-- `appendInt(b, x, width)`: decimal form of `x`, zero-padded to `width` digits, after a
minus sign when `x` is negative. -/
def appendInt (x : Int) (width : Nat) : List Char :=
  let ds := Nat.toDigits 10 x.natAbs
  (if x < 0 then ['-'] else []) ++ List.replicate (width - ds.length) '0' ++ ds

/-- Text that `Format` writes for one piece of the layout. -/
def formatChunk (c : Civil) : Chunk → List Char
  | .stdLongYear => appendInt c.year 4
  | .stdZeroMonth => appendInt c.month 2
  | .stdZeroDay => appendInt c.day 2
  | .stdHour => appendInt c.hour 2
  | .stdZeroHour12 =>
      let hr := c.hour % 12
      let hr := if hr = 0 then 12 else hr
      appendInt hr 2
  | .stdZeroMinute => appendInt c.min 2
  | .stdZeroSecond => appendInt c.sec 2

/-- `t.Format(layout)`. -/
def Time.Format (t : Time) (layout : List Chunk) : String :=
  String.mk (layout.flatMap (formatChunk t.civil))

/-- Value of a decimal digit character. -/
def digitVal (c : Char) : Nat := c.toNat - '0'.toNat

/-- `getnum(s, fixed)`: a leading number of two digits, or of one digit when `fixed` is off
and no second digit follows; with the rest of the text. -/
def getnum (s : List Char) (fixed : Bool) : Option (Nat × List Char) :=
  match s with
  | [] => none
  | c0 :: rest =>
    if !c0.isDigit then none
    else match rest with
      | c1 :: rest2 =>
        if c1.isDigit then some (digitVal c0 * 10 + digitVal c1, rest2)
        else if fixed then none else some (digitVal c0, rest)
      | [] => if fixed then none else some (digitVal c0, rest)

/-- One step of `Parse`: read the field of one layout piece, refusing a value out of range
(the day is checked against the month once all fields are read). -/
def parseChunk (c : Civil) (value : List Char) : Chunk → Option (Civil × List Char)
  | .stdLongYear =>
    match value with
    | a :: b :: y :: z :: rest =>
      if a.isDigit ∧ b.isDigit ∧ y.isDigit ∧ z.isDigit then
        some ({ c with year := (digitVal a * 1000 + digitVal b * 100 + digitVal y * 10
          + digitVal z : Nat) }, rest)
      else none
    | _ => none
  | .stdZeroMonth =>
    (getnum value true).bind fun (n, rest) =>
      if n ≤ 0 ∨ 12 < n then none else some ({ c with month := n }, rest)
  | .stdZeroDay =>
    (getnum value true).bind fun (n, rest) => some ({ c with day := n }, rest)
  | .stdHour =>
    (getnum value false).bind fun (n, rest) =>
      if 24 ≤ n then none else some ({ c with hour := n }, rest)
  | .stdZeroHour12 =>
    (getnum value true).bind fun (n, rest) =>
      if 12 < n then none else some ({ c with hour := n }, rest)
  | .stdZeroMinute =>
    (getnum value true).bind fun (n, rest) =>
      if 60 ≤ n then none else some ({ c with min := n }, rest)
  | .stdZeroSecond =>
    (getnum value true).bind fun (n, rest) =>
      if 60 ≤ n then none else some ({ c with sec := n }, rest)

/-- The loop of `Parse` over the pieces of the layout. -/
def parseChunks (c : Civil) (value : List Char) : List Chunk → Option (Civil × List Char)
  | [] => some (c, value)
  | k :: ks => (parseChunk c value k).bind fun (c1, rest) => parseChunks c1 rest ks

/-- `time.ParseInLocation(layout, value, time.Local)`, with `none` for an error.  Text left
over after the last piece is an error, and so is a day that the month does not have.
(The digits of a fraction of a second that `Parse` accepts after the seconds when a period
or comma follows them are not modelled: the values parsed here consist of digits only.) -/
def ParseInLocation (layout : List Chunk) (value : String) : Option Time :=
  (parseChunks ⟨0, 1, 1, 0, 0, 0⟩ value.data layout).bind fun (c, rest) =>
    if rest ≠ [] then none
    else if c.day < 1 ∨ c.day > daysIn c.month c.year then none
    else some (Date c.year c.month c.day c.hour c.min c.sec)

/-! ## zfs/id.go -/

/-- DatasetID uniquely identifies a ZFS dataset within a pool. -/
structure DatasetID where
  pool : String
  dataset : String
  deriving DecidableEq, Repr

/-- NewDatasetID creates a new instance of a DatasetID. -/
def NewDatasetID (pool dataset : String) : DatasetID := ⟨pool, dataset⟩

/-! ## zfs/snapshot.go: the snapshot key -/

/-- MakeSnapshotKey builds a key identifying a group of snapshots.
`fmt.Sprintf` with `%s` verbs and string operands is concatenation. -/
def MakeSnapshotKey (id : DatasetID) (pfx : String) : String :=
  let snapshotStr := id.pool ++ "-" ++ id.dataset
  let snapshotStr := if pfx ≠ "" then pfx ++ snapshotStr else snapshotStr
  id.pool ++ "/" ++ id.dataset ++ "@" ++ snapshotStr

/-! ## zfs/snapshot.go: the snapshot name -/

/-- The name `newSnapName` that `TakeSnapshot(snapKey, now, recursive, dryRun)` builds and
hands to `zfs snapshot`. -/
def newSnapName (snapKey : String) (now : Time) : String :=
  let timestamp := now.Format takeSnapshotFmt
  snapKey ++ "-" ++ timestamp

/-! ## cmd/cleanup.go -/

def oneDay : Duration := 24 * Hour
def oneWeek : Duration := 24 * 7 * Hour

/-- `re.FindStringSubmatch(s)` for the expression `-(\d{14})$`: the whole match and the
capture group when `s` ends in a hyphen and fourteen ASCII digits, nothing otherwise. -/
def FindStringSubmatch (s : String) : List String :=
  match s.data.drop (s.data.length - 15) with
  | '-' :: ds =>
    if ds.length = 14 ∧ ds.all Char.isDigit then [String.mk ('-' :: ds), String.mk ds] else []
  | _ => []

/-- The value `int64(d.Minutes())`: the whole minutes of `d`, cut off toward zero.
(`Minutes` adds, in floating point, the whole minutes and a fraction below one.  The sum is
exact for durations below `2^18` minutes; above, it may reach the next whole minute when
`d` is within nanoseconds of it.  The program only compares the value with 1.) -/
def minutesInt64 (d : Duration) : Int := Int.tdiv d Minute

/-- `sort.Sort(sort.StringSlice(snapshots))`: the names in ascending order. -/
def sortStrings (snapshots : List String) : List String :=
  snapshots.insertionSort strLE

/-- A run-time panic of the Go program. -/
inductive Panic where
  | sliceBoundsOutOfRange
  deriving DecidableEq, Repr

/-- What a call of `pickSnapshotsToDelete` leaves behind: the slice it returns, and the
contents of the caller's slice `snapshots`, which `sort.Sort` reorders in place. -/
structure Picked where
  toDelete : List String
  snapshots : List String
  deriving DecidableEq, Repr

/-- The body of the loop `for _, s := range snapshots` of the age branch of
`pickSnapshotsToDelete`: from the names `snapsToDelete` appended so far to those appended
after the pass for `s`.  The two `continue` statements leave the list as it is. -/
def ageLoopBody (maxAge : Time) (snapsToDelete : List String) (s : String) : List String :=
  let submatches := FindStringSubmatch s
  if submatches.length < 2 ∨ submatches.getD 1 "" = "" then
    snapsToDelete
  else
    let snapTimestamp := submatches.getD 1 ""
    match ParseInLocation snapTimeFmt snapTimestamp with
    | none => snapsToDelete
    | some snapDate =>
      if snapDate.Before maxAge then snapsToDelete ++ [s] else snapsToDelete

/-- `pickSnapshotsToDelete(snapshots, now, count, ageLimit)`.  The slice expression
`snapshots[0 : len(snapshots)-count]` panics when its upper bound is negative.  The test on
the package variable `saveDuration` only decides whether a notice is printed. -/
def pickSnapshotsToDelete (snapshots : List String) (now : Time) (count : Int)
    (ageLimit : Duration) : Except Panic Picked :=
  if snapshots.length = 0 then
    .ok ⟨[], snapshots⟩
  else if count > 0 then
    let sorted := sortStrings snapshots
    if (snapshots.length : Int) - count < 0 then .error .sliceBoundsOutOfRange
    else .ok ⟨sorted.take ((snapshots.length : Int) - count).toNat, sorted⟩
  else if count = 0 then
    .ok ⟨snapshots, snapshots⟩
  else if minutesInt64 ageLimit > 1 then
    let maxAge := now.Add (-ageLimit)
    .ok ⟨snapshots.foldl (ageLoopBody maxAge) [], snapshots⟩
  else
    .ok ⟨[], snapshots⟩

/-- Reduction of an integer to the range of `int64`, as Go's arithmetic does. -/
def wrap64 (x : Int) : Int := (x + 9223372036854775808) % 18446744073709551616 - 9223372036854775808

/-- Conversion `uint64(x)` of an `int64`. -/
def toUint64 (x : Int) : Int := x % 18446744073709551616

/-- `lessThanHalf(x, y)` of package time: `uint64(x)+uint64(x) < uint64(y)`. -/
def lessThanHalf (x y : Duration) : Bool :=
  decide ((toUint64 x + toUint64 x) % 18446744073709551616 < toUint64 y)

/-- Smallest `time.Duration`, `-1 << 63`. -/
def minDuration : Duration := -9223372036854775808

/-- `d.Round(m)` of package time: `d` rounded to the nearest multiple of `m`, halves away
from zero, and the extreme duration when the result does not fit. -/
def Duration.Round (d m : Duration) : Duration :=
  if m ≤ 0 then d
  else
    let r := Int.tmod d m
    if d < 0 then
      let r := -r
      if lessThanHalf r m then wrap64 (d + r)
      else
        let d1 := wrap64 (d - m + r)
        if d1 < d then d1 else minDuration
    else
      if lessThanHalf r m then wrap64 (d - r)
      else
        let d1 := wrap64 (d + m - r)
        if d1 > d then d1 else maxDuration

/-- `fmt.Sprintf("%d", x)` for an integer `x`. -/
def sprintfD (x : Int) : String := toString x

/-- `fmtSnapshotDuration(d)`.  The builder `sb` is the text written so far; `sb.Len() > 0`
holds when it is not empty. -/
def fmtSnapshotDuration (d : Duration) : String :=
  let d2 := Duration.Round d Minute
  let weeks := Int.tdiv d2 oneWeek
  let d2 := wrap64 (d2 - wrap64 (weeks * oneWeek))
  let days := Int.tdiv d2 oneDay
  let d2 := wrap64 (d2 - wrap64 (days * oneDay))
  let hours := Int.tdiv d2 Hour
  let d2 := wrap64 (d2 - wrap64 (hours * Hour))
  let mins := Int.tdiv d2 Minute
  let sb := ""
  let sb := if weeks > 0 then sb ++ (sprintfD weeks ++ "w") else sb
  let sb :=
    if days > 0 then
      let sb := if sb.length > 0 then sb ++ " " else sb
      sb ++ (sprintfD days ++ "d")
    else sb
  let sb :=
    if hours > 0 then
      let sb := if sb.length > 0 then sb ++ " " else sb
      sb ++ (sprintfD hours ++ "h")
    else sb
  let sb :=
    if mins > 0 then
      let sb := if sb.length > 0 then sb ++ " " else sb
      sb ++ (sprintfD mins ++ "m")
    else sb
  sb

/-! ## zfs/snapshot.go: listing the snapshots of a group -/

/-- The test `strings.Contains(s, substr)` on the characters of the two strings: `substr`
starts at some position of `s`. -/
def listContains : List Char → List Char → Bool
  | [], substr => substr.isEmpty
  | c :: cs, substr => substr.isPrefixOf (c :: cs) || listContains cs substr

/-- `strings.Contains(s, substr)`. -/
def Contains (s substr : String) : Bool := listContains s.data substr.data

/-- What `GetSnapshotsWithKey` observes of the command
`zfs list -H -o name -t snapshot -r pool` that it starts: the error of `cmd.StdoutPipe()`
and of `cmd.Start()`, if any, the lines that the scanner reads from its output, and the
error `scanner.Err()` that ended the reading, if any. -/
structure ZfsListRun where
  pipeErr : Option String
  startErr : Option String
  lines : List String
  scanErr : Option String

/-- `GetSnapshotsWithKey(pool, key)`, with the behaviour `zfsList` of the external command
for each pool.  An error value is the message of the error returned. -/
def GetSnapshotsWithKey (zfsList : String → ZfsListRun) (pool key : String) :
    Except String (List String) :=
  let cmd := zfsList pool
  match cmd.pipeErr with
  | some err => .error ("error connecting to standard out: " ++ err)
  | none =>
    match cmd.startErr with
    | some err => .error ("unable execute zfs: " ++ err)
    | none =>
      let snapshots := cmd.lines.foldl
        (fun snapshots snap => if !Contains snap key then snapshots else snapshots ++ [snap]) []
      match cmd.scanErr with
      | some err => .error ("error reading standard input: " ++ err)
      | none => .ok snapshots

/-! ## zfs-snapshot.go: the legacy command -/

/-- The settings `zfs` of the legacy command. -/
structure zfs where
  dryRun : Bool
  snapshot : Bool
  recursive : Bool
  cleanup : Bool
  pool : String
  dataset : String

/-- What a call of the legacy `takeSnapshot` yields: the two values it returns, and the
argument vectors of the external commands it has run. -/
structure TakeSnapshotResult where
  snapKey : String
  err : Option String
  ran : List (List String)
  deriving DecidableEq, Repr

/-- The method `(z *zfs) takeSnapshot(prefix, now)` of the legacy command; `cmdRun` gives
the error, if any, of running an external command.  The layout literal is the one of
`TakeSnapshot`, `"20060102030405"`. -/
def zfs.takeSnapshot (z : zfs) (pfx : String) (now : Time)
    (cmdRun : List String → Option String) : TakeSnapshotResult :=
  if !z.snapshot then
    ⟨"", none, []⟩
  else
    let snapshotStr := z.pool ++ "-" ++ z.dataset
    let snapshotStr := if pfx ≠ "" then pfx ++ snapshotStr else snapshotStr
    let snapKey := z.pool ++ "/" ++ z.dataset ++ "@" ++ snapshotStr ++ "s"
    let timestamp := now.Format takeSnapshotFmt
    let newSnapName := snapKey ++ "-" ++ timestamp
    let recursiveSnap := if z.recursive then "-r" else ""
    if !z.dryRun then
      let argv := ["zfs", "snapshot", recursiveSnap, newSnapName]
      match cmdRun argv with
      | some err =>
        ⟨"", some ("error executing zfs snapshot " ++ newSnapName ++ ": " ++ err), [argv]⟩
      | none => ⟨snapKey, none, [argv]⟩
    else
      ⟨snapKey, none, []⟩

/-! ## Notions used to state the properties -/

/-- The two decimal digits of a number below one hundred. -/
def twoDigits (n : Nat) : List Char := [Nat.digitChar (n / 10), Nat.digitChar (n % 10)]

/-- The four decimal digits of a number below ten thousand. -/
def fourDigits (n : Nat) : List Char :=
  [Nat.digitChar (n / 1000), Nat.digitChar (n / 100 % 10), Nat.digitChar (n / 10 % 10),
    Nat.digitChar (n % 10)]

/-- The fourteen digits `YYYYMMDDhhmmss` of a date and time of day. -/
def stampDigits (Y M D h m s : Nat) : List Char :=
  fourDigits Y ++ twoDigits M ++ twoDigits D ++ twoDigits h ++ twoDigits m ++ twoDigits s

/-- The fields are a date of the calendar in the years 0000 to 9999 and a time of day. -/
def ValidDateTime (Y M D h m s : Nat) : Prop :=
  Y ≤ 9999 ∧ 1 ≤ M ∧ M ≤ 12 ∧ 1 ≤ D ∧ D ≤ daysIn M Y ∧ h ≤ 23 ∧ m ≤ 59 ∧ s ≤ 59

instance ValidDateTime.decidable (Y M D h m s : Nat) : Decidable (ValidDateTime Y M D h m s) :=
  inferInstanceAs (Decidable (Y ≤ 9999 ∧ 1 ≤ M ∧ M ≤ 12 ∧ 1 ≤ D ∧ D ≤ daysIn M Y ∧ h ≤ 23
    ∧ m ≤ 59 ∧ s ≤ 59))

/-- The name ends in a hyphen followed by exactly fourteen digits, and these digits spell
the valid local date and time `t`. -/
def EndsInTimestamp (name : String) (t : Time) : Prop :=
  ∃ (pre : List Char) (Y M D h m s : Nat), ValidDateTime Y M D h m s
    ∧ name.data = pre ++ '-' :: stampDigits Y M D h m s ∧ t = Date Y M D h m s

/-- The name ends in a hyphen followed by exactly fourteen digits that spell a valid local
date and time strictly before `cutoff`. -/
def TimestampBefore (name : String) (cutoff : Time) : Prop :=
  ∃ t, EndsInTimestamp name t ∧ t.nanos < cutoff.nanos

/-- A duration rounded to the nearest whole minute, halves rounded up, in minutes. -/
def roundedMinutes (d : Duration) : Nat := ((d + 30 * Second) / Minute).toNat

/-- The weeks, days, hours and minutes that make up `M` minutes, each with its unit letter. -/
def durationParts (M : Nat) : List (Nat × String) :=
  [(M / 10080, "w"), (M % 10080 / 1440, "d"), (M % 1440 / 60, "h"), (M % 60, "m")]

/-- The parts of `M` minutes that are not zero, each written in decimal before its unit
letter, joined by single spaces. -/
def renderDuration (M : Nat) : String :=
  " ".intercalate
    (((durationParts M).filter (fun p => p.1 ≠ 0)).map (fun p => toString p.1 ++ p.2))

/-- The key stands at the start of the name. -/
def StartsWithKey (key name : String) : Prop := key.data <+: name.data

/-- The key stands at the start of the name and the name goes on after it. -/
def StartsWithKeyStrictly (key name : String) : Prop :=
  key.data <+: name.data ∧ key.data ≠ name.data

/-- The key occurs somewhere in the name. -/
def KeyOccursIn (key name : String) : Prop := key.data <:+: name.data

instance StartsWithKey.decidable (key name : String) : Decidable (StartsWithKey key name) :=
  inferInstanceAs (Decidable (key.data <+: name.data))

instance StartsWithKeyStrictly.decidable (key name : String) :
    Decidable (StartsWithKeyStrictly key name) :=
  inferInstanceAs (Decidable (key.data <+: name.data ∧ key.data ≠ name.data))

instance KeyOccursIn.decidable (key name : String) : Decidable (KeyOccursIn key name) :=
  inferInstanceAs (Decidable (key.data <:+: name.data))

/-! ## Properties -/

/-! ### Whole minutes of a duration -/

theorem Minute_eq : Minute = (60000000000 : Int) := by decide

theorem tdiv_of_neg (d m : Int) (hd : d < 0) (hm : 0 ≤ m) : Int.tdiv d m = -((-d) / m) := by
  have h : d = -(-d) := by omega
  rw [h, Int.neg_tdiv, Int.tdiv_eq_ediv (by omega) hm]
  simp

theorem minutesInt64_gt_one_iff (d : Duration) : minutesInt64 d > 1 ↔ 2 * Minute ≤ d := by
  unfold minutesInt64
  rw [Minute_eq]
  unfold Duration at *
  rcases le_or_lt 0 d with h0 | h0
  · rw [Int.tdiv_eq_ediv h0 (by norm_num)]
    omega
  · rw [tdiv_of_neg d _ h0 (by norm_num)]
    omega

/-! ### Sorting of names -/

instance strLE.isTotal : IsTotal String strLE := ⟨fun a b => le_total a.data b.data⟩

instance strLE.isTrans : IsTrans String strLE := ⟨fun _ _ _ h1 h2 => le_trans h1 h2⟩

theorem sortStrings_sorted (l : List String) : List.Sorted strLE (sortStrings l) :=
  List.sorted_insertionSort strLE l

theorem sortStrings_perm (l : List String) : (sortStrings l).Perm l :=
  List.perm_insertionSort strLE l

theorem sortStrings_length (l : List String) : (sortStrings l).length = l.length :=
  (sortStrings_perm l).length_eq

theorem sorted_take_le_drop (l : List String) (k : Nat) (hs : List.Sorted strLE l) :
    ∀ y ∈ l.drop k, ∀ x ∈ l.take k, strLE x y := by
  intro y hy x hx
  have h : List.Pairwise strLE (l.take k ++ l.drop k) := by
    rw [List.take_append_drop]
    exact hs
  exact (List.pairwise_append.mp h).2.2 x hx y hy

/-! ### Digits -/

theorem isDigit_digitChar (n : Nat) (h : n < 10) : (Nat.digitChar n).isDigit = true := by
  interval_cases n <;> rfl

theorem digitVal_digitChar (n : Nat) (h : n < 10) : digitVal (Nat.digitChar n) = n := by
  interval_cases n <;> rfl

theorem digitChar_digitVal (c : Char) (h : c.isDigit = true) :
    digitVal c < 10 ∧ Nat.digitChar (digitVal c) = c := by
  have h1 : 48 ≤ c.toNat ∧ c.toNat ≤ 57 := by
    simp only [Char.isDigit, Bool.and_eq_true, decide_eq_true_eq] at h
    exact ⟨h.1, h.2⟩
  have h2 : c = Char.ofNat c.toNat := (Char.ofNat_toNat c).symm
  obtain ⟨ha, hb⟩ := h1
  generalize c.toNat = k at *
  subst h2
  interval_cases k <;> exact ⟨by decide, by rfl⟩

theorem getnum_two (a b : Char) (rest : List Char) (fixed : Bool) (ha : a.isDigit = true)
    (hb : b.isDigit = true) :
    getnum (a :: b :: rest) fixed = some (digitVal a * 10 + digitVal b, rest) := by
  simp [getnum, ha, hb]

theorem getnum_twoDigits (n : Nat) (hn : n < 100) (rest : List Char) (fixed : Bool) :
    getnum (twoDigits n ++ rest) fixed = some (n, rest) := by
  have h1 : n / 10 < 10 := by omega
  have h2 : n % 10 < 10 := by omega
  have h3 : twoDigits n ++ rest = Nat.digitChar (n / 10) :: Nat.digitChar (n % 10) :: rest := rfl
  rw [h3, getnum_two _ _ _ _ (isDigit_digitChar _ h1) (isDigit_digitChar _ h2),
    digitVal_digitChar _ h1, digitVal_digitChar _ h2]
  congr 2
  omega

theorem chars_eq_twoDigits (a b : Char) (ha : a.isDigit = true) (hb : b.isDigit = true) :
    digitVal a * 10 + digitVal b < 100
      ∧ [a, b] = twoDigits (digitVal a * 10 + digitVal b) := by
  obtain ⟨ha1, ha2⟩ := digitChar_digitVal a ha
  obtain ⟨hb1, hb2⟩ := digitChar_digitVal b hb
  refine ⟨by omega, ?_⟩
  have e1 : (digitVal a * 10 + digitVal b) / 10 = digitVal a := by omega
  have e2 : (digitVal a * 10 + digitVal b) % 10 = digitVal b := by omega
  simp only [twoDigits, e1, e2, ha2, hb2]

theorem chars_eq_fourDigits (a b c d : Char) (ha : a.isDigit = true) (hb : b.isDigit = true)
    (hc : c.isDigit = true) (hd : d.isDigit = true) :
    digitVal a * 1000 + digitVal b * 100 + digitVal c * 10 + digitVal d ≤ 9999
      ∧ [a, b, c, d]
        = fourDigits (digitVal a * 1000 + digitVal b * 100 + digitVal c * 10 + digitVal d) := by
  obtain ⟨ha1, ha2⟩ := digitChar_digitVal a ha
  obtain ⟨hb1, hb2⟩ := digitChar_digitVal b hb
  obtain ⟨hc1, hc2⟩ := digitChar_digitVal c hc
  obtain ⟨hd1, hd2⟩ := digitChar_digitVal d hd
  refine ⟨by omega, ?_⟩
  have e1 : (digitVal a * 1000 + digitVal b * 100 + digitVal c * 10 + digitVal d) / 1000
      = digitVal a := by omega
  have e2 : (digitVal a * 1000 + digitVal b * 100 + digitVal c * 10 + digitVal d) / 100 % 10
      = digitVal b := by omega
  have e3 : (digitVal a * 1000 + digitVal b * 100 + digitVal c * 10 + digitVal d) / 10 % 10
      = digitVal c := by omega
  have e4 : (digitVal a * 1000 + digitVal b * 100 + digitVal c * 10 + digitVal d) % 10
      = digitVal d := by omega
  simp only [fourDigits, e1, e2, e3, e4, ha2, hb2, hc2, hd2]

/-! ### Parsing the fourteen digits -/

theorem parseChunk_year (c : Civil) (Y : Nat) (hY : Y ≤ 9999) (rest : List Char) :
    parseChunk c (fourDigits Y ++ rest) .stdLongYear
      = some (⟨(Y : Int), c.month, c.day, c.hour, c.min, c.sec⟩, rest) := by
  have h1 : Y / 1000 < 10 := by omega
  have h2 : Y / 100 % 10 < 10 := by omega
  have h3 : Y / 10 % 10 < 10 := by omega
  have h4 : Y % 10 < 10 := by omega
  have e : fourDigits Y ++ rest = Nat.digitChar (Y / 1000) :: Nat.digitChar (Y / 100 % 10)
      :: Nat.digitChar (Y / 10 % 10) :: Nat.digitChar (Y % 10) :: rest := rfl
  have hv : Y / 1000 * 1000 + Y / 100 % 10 * 100 + Y / 10 % 10 * 10 + Y % 10 = Y := by omega
  rw [e]
  simp only [parseChunk, isDigit_digitChar _ h1, isDigit_digitChar _ h2, isDigit_digitChar _ h3,
    isDigit_digitChar _ h4, digitVal_digitChar _ h1, digitVal_digitChar _ h2,
    digitVal_digitChar _ h3, digitVal_digitChar _ h4, and_self, if_true, hv]

theorem parseChunk_month (c : Civil) (n : Nat) (hn : n < 100) (rest : List Char) :
    parseChunk c (twoDigits n ++ rest) .stdZeroMonth
      = if n ≤ 0 ∨ 12 < n then none
        else some (⟨c.year, n, c.day, c.hour, c.min, c.sec⟩, rest) := by
  simp only [parseChunk, getnum_twoDigits n hn, Option.some_bind]

theorem parseChunk_day (c : Civil) (n : Nat) (hn : n < 100) (rest : List Char) :
    parseChunk c (twoDigits n ++ rest) .stdZeroDay
      = some (⟨c.year, c.month, n, c.hour, c.min, c.sec⟩, rest) := by
  simp only [parseChunk, getnum_twoDigits n hn, Option.some_bind]

theorem parseChunk_hour (c : Civil) (n : Nat) (hn : n < 100) (rest : List Char) :
    parseChunk c (twoDigits n ++ rest) .stdHour
      = if 24 ≤ n then none else some (⟨c.year, c.month, c.day, n, c.min, c.sec⟩, rest) := by
  simp only [parseChunk, getnum_twoDigits n hn, Option.some_bind]

theorem parseChunk_minute (c : Civil) (n : Nat) (hn : n < 100) (rest : List Char) :
    parseChunk c (twoDigits n ++ rest) .stdZeroMinute
      = if 60 ≤ n then none else some (⟨c.year, c.month, c.day, c.hour, n, c.sec⟩, rest) := by
  simp only [parseChunk, getnum_twoDigits n hn, Option.some_bind]

theorem parseChunk_second (c : Civil) (n : Nat) (hn : n < 100) (rest : List Char) :
    parseChunk c (twoDigits n ++ rest) .stdZeroSecond
      = if 60 ≤ n then none else some (⟨c.year, c.month, c.day, c.hour, c.min, n⟩, rest) := by
  simp only [parseChunk, getnum_twoDigits n hn, Option.some_bind]

theorem parse_stampDigits (Y M D h m s : Nat) (hY : Y ≤ 9999) (hM : M < 100) (hD : D < 100)
    (hh : h < 100) (hm : m < 100) (hs : s < 100) :
    ParseInLocation snapTimeFmt (String.mk (stampDigits Y M D h m s))
      = if ValidDateTime Y M D h m s then some (Date Y M D h m s) else none := by
  have e : stampDigits Y M D h m s = fourDigits Y ++ (twoDigits M ++ (twoDigits D
      ++ (twoDigits h ++ (twoDigits m ++ (twoDigits s ++ []))))) := by
    simp [stampDigits, List.append_assoc]
  unfold ParseInLocation snapTimeFmt
  simp only [e, parseChunks, parseChunk_year _ Y hY, Option.some_bind, parseChunk_month _ M hM,
    parseChunk_day _ D hD, parseChunk_hour _ h hh, parseChunk_minute _ m hm,
    parseChunk_second _ s hs]
  unfold ValidDateTime
  by_cases c1 : M ≤ 0 ∨ 12 < M
  · rw [if_pos c1, if_neg (by omega)]; rfl
  · rw [if_neg c1]
    simp only [Option.some_bind, parseChunk_day _ D hD, parseChunk_hour _ h hh,
      parseChunk_minute _ m hm, parseChunk_second _ s hs]
    by_cases c2 : 24 ≤ h
    · rw [if_pos c2, if_neg (by omega)]; rfl
    · rw [if_neg c2]
      simp only [Option.some_bind, parseChunk_day _ D hD, parseChunk_hour _ h hh,
        parseChunk_minute _ m hm, parseChunk_second _ s hs]
      by_cases c3 : 60 ≤ m
      · rw [if_pos c3, if_neg (by omega)]; rfl
      · rw [if_neg c3]
        simp only [Option.some_bind, parseChunk_day _ D hD, parseChunk_hour _ h hh,
          parseChunk_minute _ m hm, parseChunk_second _ s hs]
        by_cases c4 : 60 ≤ s
        · rw [if_pos c4, if_neg (by omega)]; rfl
        · rw [if_neg c4]
          simp only [Option.some_bind, ne_eq, not_true_eq_false, if_false]
          by_cases c5 : D < 1 ∨ D > daysIn M (Y : Int)
          · rw [if_pos c5, if_neg (by omega)]
          · rw [if_neg c5, if_pos (by omega)]

/-! ### The trailing timestamp of a name -/

theorem twoDigits_all_digits (n : Nat) (hn : n < 100) :
    (twoDigits n).all Char.isDigit = true := by
  simp [twoDigits, isDigit_digitChar (n / 10) (by omega), isDigit_digitChar (n % 10) (by omega)]

theorem fourDigits_all_digits (n : Nat) (hn : n ≤ 9999) :
    (fourDigits n).all Char.isDigit = true := by
  simp [fourDigits, isDigit_digitChar (n / 1000) (by omega),
    isDigit_digitChar (n / 100 % 10) (by omega), isDigit_digitChar (n / 10 % 10) (by omega),
    isDigit_digitChar (n % 10) (by omega)]

theorem stampDigits_length (Y M D h m s : Nat) : (stampDigits Y M D h m s).length = 14 := rfl

theorem stampDigits_all_digits (Y M D h m s : Nat) (hY : Y ≤ 9999) (hM : M < 100)
    (hD : D < 100) (hh : h < 100) (hm : m < 100) (hs : s < 100) :
    (stampDigits Y M D h m s).all Char.isDigit = true := by
  simp only [stampDigits, List.all_append, fourDigits_all_digits Y hY, twoDigits_all_digits M hM,
    twoDigits_all_digits D hD, twoDigits_all_digits h hh, twoDigits_all_digits m hm,
    twoDigits_all_digits s hs, Bool.and_self]

theorem daysIn_le (M : Nat) (Y : Int) : daysIn M Y ≤ 31 := by
  unfold daysIn
  split
  · omega
  · rcases Nat.lt_or_ge M 14 with h | h
    · interval_cases M <;> decide
    · have e1 : daysBefore M = 365 := by
        unfold daysBefore
        rw [List.getD_eq_default]
        simp only [List.length_cons, List.length_nil]
        omega
      have e2 : daysBefore (M - 1) = 365 := by
        unfold daysBefore
        rw [List.getD_eq_default]
        simp only [List.length_cons, List.length_nil]
        omega
      omega

theorem ValidDateTime.bounds {Y M D h m s : Nat} (hv : ValidDateTime Y M D h m s) :
    Y ≤ 9999 ∧ M < 100 ∧ D < 100 ∧ h < 100 ∧ m < 100 ∧ s < 100 := by
  obtain ⟨h1, h2, h3, h4, h5, h6, h7, h8⟩ := hv
  have := daysIn_le M (Y : Int)
  omega

theorem FindStringSubmatch_of_suffix (s : String) (pre ds : List Char)
    (hs : s.data = pre ++ '-' :: ds) (hl : ds.length = 14) (hd : ds.all Char.isDigit = true) :
    FindStringSubmatch s = [String.mk ('-' :: ds), String.mk ds] := by
  unfold FindStringSubmatch
  have e : s.data.drop (s.data.length - 15) = '-' :: ds := by
    rw [hs]
    apply List.drop_left'
    simp [hl]
  rw [e]
  simp only [hl, hd, and_self, if_true]

theorem FindStringSubmatch_cases (s : String) :
    FindStringSubmatch s = []
      ∨ ∃ pre ds, s.data = pre ++ '-' :: ds ∧ ds.length = 14 ∧ ds.all Char.isDigit = true
          ∧ FindStringSubmatch s = [String.mk ('-' :: ds), String.mk ds] := by
  unfold FindStringSubmatch
  have e := List.take_append_drop (s.data.length - 15) s.data
  generalize s.data.drop (s.data.length - 15) = tl at e
  rcases tl with _ | ⟨c, ds⟩
  · left; rfl
  · by_cases hc : c = '-'
    · subst hc
      by_cases hd : ds.length = 14 ∧ ds.all Char.isDigit = true
      · right
        exact ⟨_, ds, e.symm, hd.1, hd.2, by simp only [hd, and_self, if_true]⟩
      · left
        simp only [hd, if_false]
    · left
      split
      · rename_i heq
        simp only [List.cons.injEq] at heq
        exact absurd heq.1 hc
      · rfl

theorem digits14_eq_stampDigits (ds : List Char) (hl : ds.length = 14)
    (hd : ds.all Char.isDigit = true) :
    ∃ Y M D h m s, Y ≤ 9999 ∧ M < 100 ∧ D < 100 ∧ h < 100 ∧ m < 100 ∧ s < 100
      ∧ ds = stampDigits Y M D h m s := by
  match ds, hl with
  | [c1, c2, c3, c4, c5, c6, c7, c8, c9, c10, c11, c12, c13, c14], _ =>
    simp only [List.all_cons, List.all_nil, Bool.and_true, Bool.and_eq_true] at hd
    obtain ⟨h1, h2, h3, h4, h5, h6, h7, h8, h9, h10, h11, h12, h13, h14⟩ := hd
    obtain ⟨bY, eY⟩ := chars_eq_fourDigits c1 c2 c3 c4 h1 h2 h3 h4
    obtain ⟨bM, eM⟩ := chars_eq_twoDigits c5 c6 h5 h6
    obtain ⟨bD, eD⟩ := chars_eq_twoDigits c7 c8 h7 h8
    obtain ⟨bh, eh⟩ := chars_eq_twoDigits c9 c10 h9 h10
    obtain ⟨bm, em⟩ := chars_eq_twoDigits c11 c12 h11 h12
    obtain ⟨bs, es⟩ := chars_eq_twoDigits c13 c14 h13 h14
    refine ⟨_, _, _, _, _, _, bY, bM, bD, bh, bm, bs, ?_⟩
    have e : [c1, c2, c3, c4, c5, c6, c7, c8, c9, c10, c11, c12, c13, c14]
        = [c1, c2, c3, c4] ++ [c5, c6] ++ [c7, c8] ++ [c9, c10] ++ [c11, c12] ++ [c13, c14] := rfl
    rw [e, eY, eM, eD, eh, em, es]
    rfl

/-- A name that ends in a timestamp is matched by the expression, and its digits parse as
that timestamp. -/
theorem selector_parse_of_EndsInTimestamp (s : String) (t : Time) (h : EndsInTimestamp s t) :
    ∃ w g, FindStringSubmatch s = [w, g] ∧ g ≠ "" ∧ ParseInLocation snapTimeFmt g = some t := by
  obtain ⟨pre, Y, M, D, hh, m, sec, hv, hs, ht⟩ := h
  obtain ⟨b1, b2, b3, b4, b5, b6⟩ := hv.bounds
  refine ⟨_, _, FindStringSubmatch_of_suffix s pre _ hs (stampDigits_length ..)
    (stampDigits_all_digits _ _ _ _ _ _ b1 b2 b3 b4 b5 b6), ?_, ?_⟩
  · intro hcontra
    have := congrArg String.length hcontra
    simp [String.length, stampDigits_length] at this
  · rw [parse_stampDigits Y M D hh m sec b1 b2 b3 b4 b5 b6, if_pos hv, ht]

/-- Whatever the expression captures and the layout accepts is the timestamp that the name
ends in. -/
theorem EndsInTimestamp_of_selector_parse (s w g : String) (t : Time)
    (hf : FindStringSubmatch s = [w, g]) (hp : ParseInLocation snapTimeFmt g = some t) :
    EndsInTimestamp s t := by
  rcases FindStringSubmatch_cases s with h0 | ⟨pre, ds, hs, hl, hd, hf2⟩
  · rw [h0] at hf
    exact absurd hf (by simp)
  · rw [hf2] at hf
    simp only [List.cons.injEq, and_true] at hf
    obtain ⟨Y, M, D, hh, m, sec, b1, b2, b3, b4, b5, b6, e⟩ := digits14_eq_stampDigits ds hl hd
    rw [← hf.2, e, parse_stampDigits Y M D hh m sec b1 b2 b3 b4 b5 b6] at hp
    by_cases hv : ValidDateTime Y M D hh m sec
    · rw [if_pos hv] at hp
      exact ⟨pre, Y, M, D, hh, m, sec, hv, by rw [hs, e], (Option.some.inj hp).symm⟩
    · rw [if_neg hv] at hp
      exact absurd hp (by simp)

theorem EndsInTimestamp_unique (s : String) (t u : Time) (ht : EndsInTimestamp s t)
    (hu : EndsInTimestamp s u) : t = u := by
  obtain ⟨w, g, hf, _, hp⟩ := selector_parse_of_EndsInTimestamp s t ht
  obtain ⟨w2, g2, hf2, _, hp2⟩ := selector_parse_of_EndsInTimestamp s u hu
  rw [hf] at hf2
  simp only [List.cons.injEq, and_true] at hf2
  rw [← hf2.2, hp] at hp2
  exact Option.some.inj hp2

/-! ### The loop of the age branch -/

theorem ageLoopBody_of_timestamp (maxAge : Time) (acc : List String) (s : String)
    (t : Time) (h : EndsInTimestamp s t) :
    ageLoopBody maxAge acc s = if t.nanos < maxAge.nanos then acc ++ [s] else acc := by
  obtain ⟨w, g, hf, hg, hp⟩ := selector_parse_of_EndsInTimestamp s t h
  unfold ageLoopBody
  simp only [hf, List.length_cons, List.length_nil, List.getD_cons_succ, List.getD_cons_zero,
    hg, hp, Time.Before, decide_eq_true_eq]
  simp

theorem ageLoopBody_of_no_timestamp (maxAge : Time) (acc : List String) (s : String)
    (h : ¬ ∃ t, EndsInTimestamp s t) :
    ageLoopBody maxAge acc s = acc := by
  unfold ageLoopBody
  rcases FindStringSubmatch_cases s with h0 | ⟨pre, ds, _, _, _, hf⟩
  · simp [h0]
  · cases hp : ParseInLocation snapTimeFmt (String.mk ds) with
    | none => simp [hf, hp]
    | some t => exact absurd ⟨t, EndsInTimestamp_of_selector_parse s _ _ t hf hp⟩ h

theorem ageLoop_eq_filter (maxAge : Time) (l acc : List String) :
    l.foldl (ageLoopBody maxAge) acc
      = acc ++ l.filter
          (fun s => @decide (TimestampBefore s maxAge) (Classical.propDecidable _)) := by
  induction l generalizing acc with
  | nil => simp
  | cons s rest ih =>
    rw [List.foldl_cons, ih]
    by_cases h : ∃ t, EndsInTimestamp s t
    · obtain ⟨t, ht⟩ := h
      rw [ageLoopBody_of_timestamp maxAge acc s t ht]
      by_cases hb : t.nanos < maxAge.nanos
      · have hT : TimestampBefore s maxAge := ⟨t, ht, hb⟩
        simp [hb, hT]
      · have hT : ¬ TimestampBefore s maxAge := by
          rintro ⟨u, hu, hlt⟩
          rw [EndsInTimestamp_unique s t u ht hu] at hb
          exact hb hlt
        simp [hb, hT]
    · rw [ageLoopBody_of_no_timestamp maxAge acc s h]
      have hT : ¬ TimestampBefore s maxAge := fun ⟨u, hu, _⟩ => h ⟨u, hu⟩
      simp [hT]

theorem pick_age_branch (snapshots : List String) (now : Time) (count : Int)
    (ageLimit : Duration) (hc : count < 0) (ha : 2 * Minute ≤ ageLimit) :
    pickSnapshotsToDelete snapshots now count ageLimit
      = .ok ⟨snapshots.filter (fun s => @decide (TimestampBefore s ⟨now.nanos - ageLimit⟩)
          (Classical.propDecidable _)), snapshots⟩ := by
  have hm : minutesInt64 ageLimit > 1 := (minutesInt64_gt_one_iff ageLimit).mpr ha
  have h1 : ¬ count > 0 := by omega
  have h2 : ¬ count = 0 := by omega
  have e : now.Add (-ageLimit) = ⟨now.nanos - ageLimit⟩ := by
    simp [Time.Add, Int.sub_eq_add_neg]
  unfold pickSnapshotsToDelete
  by_cases h0 : snapshots.length = 0
  · have : snapshots = [] := List.length_eq_zero.mp h0
    subst this
    simp
  · simp only [h0, h1, h2, hm, if_true, if_false, e, ageLoop_eq_filter, List.nil_append]

theorem pick_unset_branch (snapshots : List String) (now : Time) (count : Int)
    (ageLimit : Duration) (hc : count < 0) (ha : ageLimit < 2 * Minute) :
    pickSnapshotsToDelete snapshots now count ageLimit = .ok ⟨[], snapshots⟩ := by
  have hm : ¬ minutesInt64 ageLimit > 1 := by
    rw [minutesInt64_gt_one_iff]
    exact not_le.mpr ha
  have h1 : ¬ count > 0 := by omega
  have h2 : ¬ count = 0 := by omega
  unfold pickSnapshotsToDelete
  by_cases h0 : snapshots.length = 0
  · simp [h0]
  · simp only [h0, h1, h2, hm, if_false]

/-! ### Rounding and splitting a duration -/

theorem wrap64_of_inRange (x : Int) (h1 : -9223372036854775808 ≤ x)
    (h2 : x ≤ 9223372036854775807) : wrap64 x = x := by
  unfold wrap64
  omega

theorem Round_minute (d : Duration) (h0 : 0 ≤ d) (hmax : d ≤ maxDuration) :
    Duration.Round d Minute = 60000000000 * (roundedMinutes d : Int)
      ∧ 60000000000 * (roundedMinutes d : Int) ≤ 9223372036854775807 := by
  have hM : Minute = (60000000000 : Int) := by decide
  have hS : (30 : Int) * Second = 30000000000 := by decide
  have hX : maxDuration = (9223372036854775807 : Int) := rfl
  unfold Duration at *
  rw [hX] at hmax
  unfold roundedMinutes Duration.Round
  rw [hM, hS]
  have hr : Int.tmod d 60000000000 = d % 60000000000 := Int.tmod_eq_emod h0 (by norm_num)
  simp only [hr, lessThanHalf, toUint64]
  have c1 : ¬ ((60000000000 : Int) ≤ 0) := by norm_num
  have c2 : ¬ (d < 0) := by omega
  rw [if_neg c1, if_neg c2]
  by_cases hlt : (d % 60000000000 % 18446744073709551616 + d % 60000000000 % 18446744073709551616)
      % 18446744073709551616 < 60000000000 % 18446744073709551616
  · simp only [hlt, decide_True, if_true]
    rw [wrap64_of_inRange _ (by omega) (by omega)]
    omega
  · simp only [hlt, decide_False, Bool.false_eq_true, if_false]
    rw [wrap64_of_inRange _ (by omega) (by omega)]
    have : d + 60000000000 - d % 60000000000 > d := by omega
    simp only [this, if_true]
    omega

theorem split_week (x : Nat) (hx : 60000000000 * (x : Int) ≤ 9223372036854775807) :
    Int.tdiv (60000000000 * (x : Int)) oneWeek = ((x / 10080 : Nat) : Int)
      ∧ wrap64 (60000000000 * (x : Int) - wrap64 (((x / 10080 : Nat) : Int) * oneWeek))
          = 60000000000 * ((x % 10080 : Nat) : Int) := by
  have hW : oneWeek = (604800000000000 : Int) := by decide
  unfold Duration at *
  rw [hW, Int.tdiv_eq_ediv (by omega) (by norm_num)]
  refine ⟨by omega, ?_⟩
  rw [wrap64_of_inRange (_ * _) (by omega) (by omega), wrap64_of_inRange _ (by omega) (by omega)]
  omega

theorem split_day (x : Nat) (hx : 60000000000 * (x : Int) ≤ 9223372036854775807) :
    Int.tdiv (60000000000 * (x : Int)) oneDay = ((x / 1440 : Nat) : Int)
      ∧ wrap64 (60000000000 * (x : Int) - wrap64 (((x / 1440 : Nat) : Int) * oneDay))
          = 60000000000 * ((x % 1440 : Nat) : Int) := by
  have hW : oneDay = (86400000000000 : Int) := by decide
  unfold Duration at *
  rw [hW, Int.tdiv_eq_ediv (by omega) (by norm_num)]
  refine ⟨by omega, ?_⟩
  rw [wrap64_of_inRange (_ * _) (by omega) (by omega), wrap64_of_inRange _ (by omega) (by omega)]
  omega

theorem split_hour (x : Nat) (hx : 60000000000 * (x : Int) ≤ 9223372036854775807) :
    Int.tdiv (60000000000 * (x : Int)) Hour = ((x / 60 : Nat) : Int)
      ∧ wrap64 (60000000000 * (x : Int) - wrap64 (((x / 60 : Nat) : Int) * Hour))
          = 60000000000 * ((x % 60 : Nat) : Int) := by
  have hW : Hour = (3600000000000 : Int) := by decide
  unfold Duration at *
  rw [hW, Int.tdiv_eq_ediv (by omega) (by norm_num)]
  refine ⟨by omega, ?_⟩
  rw [wrap64_of_inRange (_ * _) (by omega) (by omega), wrap64_of_inRange _ (by omega) (by omega)]
  omega

theorem split_minute (x : Nat) :
    Int.tdiv (60000000000 * (x : Int)) Minute = (x : Int) := by
  have hW : Minute = (60000000000 : Int) := by decide
  unfold Duration at *
  rw [hW, Int.tdiv_eq_ediv (by omega) (by norm_num)]
  omega

theorem sprintfD_natCast (x : Nat) : sprintfD (x : Int) = toString x := rfl

theorem append_unit_length_pos (a u : String) (hu : u.length = 1) : (a ++ u).length > 0 := by
  rw [String.length_append, hu]
  omega

theorem empty_append_str (a : String) : "" ++ a = a := by
  apply String.ext
  simp

theorem fmtSnapshotDuration_eq_render (d : Duration) (h0 : 0 ≤ d) (hmax : d ≤ maxDuration) :
    fmtSnapshotDuration d = renderDuration (roundedMinutes d) := by
  obtain ⟨hR, hb⟩ := Round_minute d h0 hmax
  generalize roundedMinutes d = M at hR hb
  have hb2 : 60000000000 * ((M % 10080 : Nat) : Int) ≤ 9223372036854775807 := by omega
  have hb3 : 60000000000 * ((M % 10080 % 1440 : Nat) : Int) ≤ 9223372036854775807 := by omega
  have e1 : M % 10080 % 1440 / 60 = M % 1440 / 60 := by omega
  have e2 : M % 10080 % 1440 % 60 = M % 60 := by omega
  unfold fmtSnapshotDuration renderDuration durationParts
  simp only [hR, (split_week M hb).1, (split_week M hb).2, (split_day _ hb2).1,
    (split_day _ hb2).2, (split_hour _ hb3).1, (split_hour _ hb3).2, split_minute,
    sprintfD_natCast]
  rw [e1, e2]
  generalize M / 10080 = w
  generalize M % 10080 / 1440 = dy
  generalize M % 1440 / 60 = h
  generalize M % 60 = m
  have cw : ((w : Int) > 0) ↔ w ≠ 0 := by omega
  have cd : ((dy : Int) > 0) ↔ dy ≠ 0 := by omega
  have ch : ((h : Int) > 0) ↔ h ≠ 0 := by omega
  have cm : ((m : Int) > 0) ↔ m ≠ 0 := by omega
  simp only [cw, cd, ch, cm, empty_append_str]
  have lw : ∀ a : String, (a ++ "w").length > 0 := fun a => append_unit_length_pos a _ rfl
  have ld : ∀ a : String, (a ++ "d").length > 0 := fun a => append_unit_length_pos a _ rfl
  have lh : ∀ a : String, (a ++ "h").length > 0 := fun a => append_unit_length_pos a _ rfl
  have l0 : ¬ ("".length > 0) := by decide
  by_cases hw : w = 0 <;> by_cases hd : dy = 0 <;> by_cases hh : h = 0 <;> by_cases hm : m = 0
  all_goals
    simp only [hw, hd, hh, hm, ne_eq, not_true_eq_false, not_false_eq_true, if_true, if_false,
      lw, ld, lh, l0, ← String.append_assoc, List.filter, decide_True, decide_False, List.map,
      String.intercalate, String.intercalate.go]
  all_goals try simp only [empty_append_str]

/-! ### The caller's slice, and the filter by key -/

theorem sortStrings_of_sorted (l : List String) (h : List.Sorted strLE l) :
    sortStrings l = l :=
  List.Sorted.insertionSort_eq h

theorem listContains_iff (s substr : List Char) :
    listContains s substr = true ↔ substr <:+: s := by
  induction s with
  | nil =>
    rw [listContains, List.infix_nil]
    cases substr <;> simp
  | cons c cs ih =>
    rw [listContains, Bool.or_eq_true, ih, List.infix_cons_iff]
    exact or_congr_left ( List.isPrefixOf_iff_prefix)

theorem Contains_iff (s key : String) : Contains s key = true ↔ KeyOccursIn key s :=
  listContains_iff s.data key.data

theorem keyLoop_eq_filter (key : String) (l acc : List String) :
    l.foldl (fun snapshots snap => if !Contains snap key then snapshots else snapshots ++ [snap])
        acc
      = acc ++ l.filter (fun s => decide (KeyOccursIn key s)) := by
  induction l generalizing acc with
  | nil => simp
  | cons s rest ih =>
    rw [List.foldl_cons, ih]
    by_cases h : KeyOccursIn key s
    · have hc : Contains s key = true := (Contains_iff s key).mpr h
      simp [h, hc]
    · have hc : Contains s key = false := by
        cases hb : Contains s key
        · rfl
        · exact absurd ((Contains_iff s key).mp hb) h
      simp [h, hc]

/-- C1, the code at a failing input: for the key `p/d@p-d` and the local time
2021-03-12 13:00:00 the name built as in `TakeSnapshot` is `p/d@p-d-20210312010000` (the
hour is written on the twelve-hour clock), the selector finds the fourteen digits and parses
them as 2021-03-12 01:00:00, which is not the time the name was built for. -/
theorem roundtrip_fails_at_1pm :
    newSnapName "p/d@p-d" (Date 2021 3 12 13 0 0) = "p/d@p-d-20210312010000"
      ∧ FindStringSubmatch (newSnapName "p/d@p-d" (Date 2021 3 12 13 0 0))
          = ["-20210312010000", "20210312010000"]
      ∧ ParseInLocation snapTimeFmt "20210312010000" = some (Date 2021 3 12 1 0 0)
      ∧ Date 2021 3 12 1 0 0 ≠ (Date 2021 3 12 13 0 0).truncSecond := by
  decide

/-- C2, the code at a failing input: with one snapshot and `count = 2`, a count that is not
negative and not below the number of snapshots, the call does not return an empty list: it
panics on the slice expression `snapshots[0 : len(snapshots)-count]`, whose upper bound
is -1. -/
theorem pick_count_above_len_panics :
    (0 : Int) ≤ 2
      ∧ ((["p/d@p-d-20210311200500"].length : Nat) : Int) ≤ 2
      ∧ pickSnapshotsToDelete ["p/d@p-d-20210311200500"] (Date 2021 3 12 8 0 0) 2 0
          = .error .sliceBoundsOutOfRange := by
  decide

/-- C3: keep-last-N.  For every list of snapshot names, every `now` and `ageLimit`, and every
count `N` with `0 ≤ N < len(snapshots)`, `pickSnapshotsToDelete` returns normally; the list
returned has `len(snapshots) - N` elements; for `N > 0` it is the first `len - N` names of the
input sorted ascending (the sorted input being an ordered rearrangement of the input), for
`N = 0` it is the whole input; and in either case the input is, as a multiset, the returned
names together with `N` kept names each of which is at least as great as every returned
name. -/
theorem pick_keep_last_n (snapshots : List String) (now : Time) (ageLimit : Duration)
    (N : Nat) (hN : N < snapshots.length) :
    ∃ p, pickSnapshotsToDelete snapshots now (N : Int) ageLimit = .ok p
      ∧ p.toDelete.length = snapshots.length - N
      ∧ (0 < N → p.toDelete = (sortStrings snapshots).take (snapshots.length - N))
      ∧ (N = 0 → p.toDelete = snapshots)
      ∧ List.Sorted strLE (sortStrings snapshots)
      ∧ (sortStrings snapshots).Perm snapshots
      ∧ ∃ kept : List String, kept.length = N
          ∧ (p.toDelete ++ kept).Perm snapshots
          ∧ ∀ k ∈ kept, ∀ x ∈ p.toDelete, strLE x k := by
  have h0 : ¬ snapshots.length = 0 := by omega
  rcases Nat.eq_zero_or_pos N with hz | hpos
  · subst hz
    refine ⟨⟨snapshots, snapshots⟩, ?_, by simp, by simp, by simp,
      sortStrings_sorted _, sortStrings_perm _, [], rfl, by simp, by simp⟩
    simp [pickSnapshotsToDelete, h0]
  · have hc : (N : Int) > 0 := by omega
    have hb : ¬ ((snapshots.length : Int) - (N : Int) < 0) := by omega
    have hk : ((snapshots.length : Int) - (N : Int)).toNat = snapshots.length - N := by omega
    refine ⟨⟨(sortStrings snapshots).take (snapshots.length - N), sortStrings snapshots⟩,
      ?_, ?_, fun _ => rfl, fun h => by omega, sortStrings_sorted _, sortStrings_perm _,
      (sortStrings snapshots).drop (snapshots.length - N), ?_, ?_, ?_⟩
    · simp only [pickSnapshotsToDelete, h0, hc, hb, hk, if_true, if_false]
    · simp [List.length_take, sortStrings_length]
    · simp [List.length_drop, sortStrings_length]
      omega
    · show ((sortStrings snapshots).take (snapshots.length - N)
          ++ (sortStrings snapshots).drop (snapshots.length - N)).Perm snapshots
      rw [List.take_append_drop]
      exact sortStrings_perm _
    · exact sorted_take_le_drop _ _ (sortStrings_sorted _)

theorem pick_keep_last_n_witness :
    1 < ["p/d@p-d-20210312081925", "p/d@p-d-20210312081617", "p/d@p-d-20210312081654"].length
      ∧ ∃ p, pickSnapshotsToDelete
            ["p/d@p-d-20210312081925", "p/d@p-d-20210312081617", "p/d@p-d-20210312081654"]
            (Date 2021 3 12 8 0 0) ((1 : Nat) : Int) 0 = .ok p
          ∧ p.toDelete.length
            = ["p/d@p-d-20210312081925", "p/d@p-d-20210312081617",
                "p/d@p-d-20210312081654"].length - 1
          ∧ (0 < 1 → p.toDelete
              = (sortStrings ["p/d@p-d-20210312081925", "p/d@p-d-20210312081617",
                  "p/d@p-d-20210312081654"]).take
                (["p/d@p-d-20210312081925", "p/d@p-d-20210312081617",
                  "p/d@p-d-20210312081654"].length - 1))
          ∧ (1 = 0 → p.toDelete
              = ["p/d@p-d-20210312081925", "p/d@p-d-20210312081617", "p/d@p-d-20210312081654"])
          ∧ List.Sorted strLE (sortStrings
              ["p/d@p-d-20210312081925", "p/d@p-d-20210312081617", "p/d@p-d-20210312081654"])
          ∧ (sortStrings
              ["p/d@p-d-20210312081925", "p/d@p-d-20210312081617",
                "p/d@p-d-20210312081654"]).Perm
              ["p/d@p-d-20210312081925", "p/d@p-d-20210312081617", "p/d@p-d-20210312081654"]
          ∧ ∃ kept : List String, kept.length = 1
              ∧ (p.toDelete ++ kept).Perm
                  ["p/d@p-d-20210312081925", "p/d@p-d-20210312081617",
                    "p/d@p-d-20210312081654"]
              ∧ ∀ k ∈ kept, ∀ x ∈ p.toDelete, strLE x k :=
  ⟨by decide,
    pick_keep_last_n
      ["p/d@p-d-20210312081925", "p/d@p-d-20210312081617", "p/d@p-d-20210312081654"]
      (Date 2021 3 12 8 0 0) 0 1 (by decide)⟩

/-- C4: age-based selection.  For every list of names, every `now`, every `count < 0` and
every `ageLimit` of at least two minutes, `pickSnapshotsToDelete` returns normally, and the
list returned is the subsequence of the input, in input order, of the names that end in a
hyphen followed by exactly fourteen digits spelling a valid local date and time strictly
before `now - ageLimit`.  So every returned name has such a timestamp, and a name whose
timestamp is the cutoff or later is not returned. -/
theorem pick_by_age (snapshots : List String) (now : Time) (count : Int)
    (ageLimit : Duration) (hc : count < 0) (ha : 2 * Minute ≤ ageLimit) :
    ∃ p, pickSnapshotsToDelete snapshots now count ageLimit = .ok p
      ∧ p.toDelete = snapshots.filter (fun s =>
          @decide (TimestampBefore s ⟨now.nanos - ageLimit⟩) (Classical.propDecidable _))
      ∧ (∀ s ∈ p.toDelete, ∃ t, EndsInTimestamp s t ∧ t.nanos < now.nanos - ageLimit)
      ∧ (∀ s t, EndsInTimestamp s t → now.nanos - ageLimit ≤ t.nanos → s ∉ p.toDelete) := by
  refine ⟨_, pick_age_branch snapshots now count ageLimit hc ha, rfl, ?_, ?_⟩
  · intro s hs
    have h := (List.mem_filter.mp hs).2
    simpa [TimestampBefore] using h
  · intro s t ht hle hs
    have h := (List.mem_filter.mp hs).2
    simp only [decide_eq_true_eq] at h
    obtain ⟨u, hu, hlt⟩ := h
    rw [EndsInTimestamp_unique s t u ht hu] at hle
    exact absurd hlt (not_lt.mpr hle)

theorem pick_by_age_witness :
    (-1 : Int) < 0 ∧ 2 * Minute ≤ Hour
      ∧ ∃ p, pickSnapshotsToDelete
            ["p/d@p-d-20210312030500", "p/d@p-d-2021031", "p/d@p-d-20210312080000"]
            (Date 2021 3 12 8 2 0) (-1) Hour = .ok p
          ∧ p.toDelete
            = ["p/d@p-d-20210312030500", "p/d@p-d-2021031", "p/d@p-d-20210312080000"].filter
              (fun s => @decide (TimestampBefore s ⟨(Date 2021 3 12 8 2 0).nanos - Hour⟩)
                (Classical.propDecidable _))
          ∧ (∀ s ∈ p.toDelete,
              ∃ t, EndsInTimestamp s t ∧ t.nanos < (Date 2021 3 12 8 2 0).nanos - Hour)
          ∧ (∀ s t, EndsInTimestamp s t → (Date 2021 3 12 8 2 0).nanos - Hour ≤ t.nanos
              → s ∉ p.toDelete) :=
  ⟨by decide, by decide,
    pick_by_age ["p/d@p-d-20210312030500", "p/d@p-d-2021031", "p/d@p-d-20210312080000"]
      (Date 2021 3 12 8 2 0) (-1) Hour (by decide) (by decide)⟩

/-- C5, the code at a failing input: of the two times 12:30:00 and 13:00:00 of 2021-03-12
the first is the earlier one, yet the name built for it as in `TakeSnapshot` is the greater
string (`...123000` against `...010000`), and keeping the last one snapshot of the two by
name selects the newer snapshot for deletion. -/
theorem name_order_fails_across_noon :
    (Date 2021 3 12 12 30 0).Before (Date 2021 3 12 13 0 0) = true
      ∧ newSnapName "p/d@p-d" (Date 2021 3 12 12 30 0) = "p/d@p-d-20210312123000"
      ∧ newSnapName "p/d@p-d" (Date 2021 3 12 13 0 0) = "p/d@p-d-20210312010000"
      ∧ ¬ strLT (newSnapName "p/d@p-d" (Date 2021 3 12 12 30 0))
            (newSnapName "p/d@p-d" (Date 2021 3 12 13 0 0))
      ∧ strLT (newSnapName "p/d@p-d" (Date 2021 3 12 13 0 0))
            (newSnapName "p/d@p-d" (Date 2021 3 12 12 30 0))
      ∧ pickSnapshotsToDelete
            [newSnapName "p/d@p-d" (Date 2021 3 12 12 30 0),
             newSnapName "p/d@p-d" (Date 2021 3 12 13 0 0)]
            (Date 2021 3 12 14 0 0) 1 0
          = .ok ⟨["p/d@p-d-20210312010000"],
                 ["p/d@p-d-20210312010000", "p/d@p-d-20210312123000"]⟩ := by
  decide

/-- C6, counterexample: an age limit of 90 seconds rounds to two minutes, more than one
minute, and the name `p/d@p-d-20210301200500` of the input carries a valid timestamp
strictly before `now - ageLimit` for `now` = 2021-03-12 08:00:00; yet with `count = -1` the
list returned is empty: the age rule is not applied. -/
theorem age_limit_90s_not_applied :
    (-1 : Int) < 0
      ∧ Duration.Round (90 * Second) Minute = 2 * Minute
      ∧ (1 : Int) * Minute < Duration.Round (90 * Second) Minute
      ∧ TimestampBefore "p/d@p-d-20210301200500" ⟨(Date 2021 3 12 8 0 0).nanos - 90 * Second⟩
      ∧ pickSnapshotsToDelete ["p/d@p-d-20210301200500"] (Date 2021 3 12 8 0 0) (-1)
          (90 * Second) = .ok ⟨[], ["p/d@p-d-20210301200500"]⟩ :=
  ⟨by decide, by decide, by decide,
    ⟨Date 2021 3 1 20 5 0, ⟨"p/d@p-d".data, 2021, 3, 1, 20, 5, 0, by decide, by decide, rfl⟩,
      by decide⟩,
    by decide⟩

/-- C6 as amended: for every list of names, every `now` and every `count < 0`,
`pickSnapshotsToDelete` returns normally; when `ageLimit` is at least two minutes (its whole
minutes, cut off, exceed one) every input name with a valid timestamp strictly before
`now - ageLimit` is in the list returned; when `ageLimit` is below two minutes the age limit
counts as unset and the list returned is empty. -/
theorem pick_age_limit_threshold (snapshots : List String) (now : Time) (count : Int)
    (ageLimit : Duration) (hc : count < 0) :
    ∃ p, pickSnapshotsToDelete snapshots now count ageLimit = .ok p
      ∧ (minutesInt64 ageLimit > 1 ↔ 2 * Minute ≤ ageLimit)
      ∧ (2 * Minute ≤ ageLimit →
          ∀ s ∈ snapshots, TimestampBefore s ⟨now.nanos - ageLimit⟩ → s ∈ p.toDelete)
      ∧ (ageLimit < 2 * Minute → p.toDelete = []) := by
  rcases le_or_lt (2 * Minute) ageLimit with ha | ha
  · refine ⟨_, pick_age_branch snapshots now count ageLimit hc ha,
      minutesInt64_gt_one_iff ageLimit, ?_, fun h => absurd ha (not_le.mpr h)⟩
    intro _ s hs hT
    exact List.mem_filter.mpr ⟨hs, by simpa using hT⟩
  · exact ⟨_, pick_unset_branch snapshots now count ageLimit hc ha,
      minutesInt64_gt_one_iff ageLimit, fun h => absurd h (not_le.mpr ha), fun _ => rfl⟩

theorem pick_age_limit_threshold_witness :
    (-1 : Int) < 0
      ∧ ∃ p, pickSnapshotsToDelete ["p/d@p-d-20210301200500"] (Date 2021 3 12 8 0 0) (-1)
            (2 * Minute) = .ok p
          ∧ (minutesInt64 (2 * Minute) > 1 ↔ 2 * Minute ≤ 2 * Minute)
          ∧ (2 * Minute ≤ 2 * Minute →
              ∀ s ∈ ["p/d@p-d-20210301200500"],
                TimestampBefore s ⟨(Date 2021 3 12 8 0 0).nanos - 2 * Minute⟩
                  → s ∈ p.toDelete)
          ∧ (2 * Minute < 2 * Minute → p.toDelete = []) :=
  ⟨by decide,
    pick_age_limit_threshold ["p/d@p-d-20210301200500"] (Date 2021 3 12 8 0 0) (-1)
      (2 * Minute) (by decide)⟩

/-- C7: for every list of snapshot names, every `now`, every `count < 0` and every `ageLimit`
of at most one minute (zero and negative durations included), `pickSnapshotsToDelete` returns
normally and the list it returns is empty. -/
theorem pick_unset_returns_empty (snapshots : List String) (now : Time) (count : Int)
    (ageLimit : Duration) (hc : count < 0) (ha : ageLimit ≤ Minute) :
    ∃ p, pickSnapshotsToDelete snapshots now count ageLimit = .ok p ∧ p.toDelete = [] := by
  have hm : ¬ minutesInt64 ageLimit > 1 := by
    rw [minutesInt64_gt_one_iff]
    rw [Minute_eq] at ha ⊢
    unfold Duration at *
    omega
  unfold pickSnapshotsToDelete
  by_cases h0 : snapshots.length = 0
  · exact ⟨⟨[], snapshots⟩, by simp [h0], rfl⟩
  · have h1 : ¬ count > 0 := by omega
    have h2 : ¬ count = 0 := by omega
    exact ⟨⟨[], snapshots⟩, by simp only [h0, h1, h2, hm, if_false], rfl⟩

theorem pick_unset_returns_empty_witness :
    (-1 : Int) < 0 ∧ (0 : Duration) ≤ Minute
      ∧ ∃ p, pickSnapshotsToDelete ["p/d@p-d-20210311200500", "p/d@p-d-20210310200500"]
            (Date 2021 3 12 8 0 0) (-1) 0 = .ok p ∧ p.toDelete = [] :=
  ⟨by decide, by decide,
    pick_unset_returns_empty ["p/d@p-d-20210311200500", "p/d@p-d-20210310200500"]
      (Date 2021 3 12 8 0 0) (-1) 0 (by decide) (by decide)⟩

/-- C8: for every list of snapshot names and every `count ≥ 0`, the outcome of
`pickSnapshotsToDelete` is the same for any two pairs of `now` and `ageLimit`: when the count
is set, neither the age limit nor the current time has any influence on the list returned. -/
theorem pick_count_ignores_age (snapshots : List String) (count : Int) (now1 now2 : Time)
    (ageLimit1 ageLimit2 : Duration) (hc : 0 ≤ count) :
    pickSnapshotsToDelete snapshots now1 count ageLimit1
      = pickSnapshotsToDelete snapshots now2 count ageLimit2 := by
  unfold pickSnapshotsToDelete
  by_cases h0 : snapshots.length = 0
  · simp [h0]
  · by_cases h1 : count > 0
    · simp [h0, h1]
    · have h2 : count = 0 := by omega
      simp [h2]

theorem pick_count_ignores_age_witness :
    (0 : Int) ≤ 1
      ∧ pickSnapshotsToDelete ["p/d@p-d-20210310200500", "p/d@p-d-20210311200500"]
          (Date 2021 3 12 8 0 0) 1 (72 * Hour)
        = pickSnapshotsToDelete ["p/d@p-d-20210310200500", "p/d@p-d-20210311200500"]
          (Date 2030 1 1 0 0 0) 1 0
      ∧ pickSnapshotsToDelete ["p/d@p-d-20210310200500", "p/d@p-d-20210311200500"]
          (Date 2021 3 12 8 0 0) 1 (72 * Hour)
        = .ok ⟨["p/d@p-d-20210310200500"],
               ["p/d@p-d-20210310200500", "p/d@p-d-20210311200500"]⟩ :=
  ⟨by decide,
    pick_count_ignores_age ["p/d@p-d-20210310200500", "p/d@p-d-20210311200500"] 1
      (Date 2021 3 12 8 0 0) (Date 2030 1 1 0 0 0) (72 * Hour) 0 (by decide),
    by decide⟩

/-- C9: for every pool name, dataset name and prefix, the key built by `MakeSnapshotKey` for
`NewDatasetID pool dataset` is the concatenation of pool, a slash, dataset, an at sign, the
prefix, pool, a hyphen and dataset; with the empty prefix it is pool/dataset@pool-dataset.
The function is total: it has no failure case. -/
theorem MakeSnapshotKey_eq (pool dataset pfx : String) :
    MakeSnapshotKey (NewDatasetID pool dataset) pfx
        = pool ++ "/" ++ dataset ++ "@" ++ pfx ++ pool ++ "-" ++ dataset
      ∧ MakeSnapshotKey (NewDatasetID pool dataset) ""
        = pool ++ "/" ++ dataset ++ "@" ++ pool ++ "-" ++ dataset := by
  constructor
  · unfold MakeSnapshotKey NewDatasetID
    by_cases h : pfx = ""
    · subst h
      simp [String.append_assoc]
    · simp [h, String.append_assoc]
  · simp [MakeSnapshotKey, NewDatasetID, String.append_assoc]

/-- C10: for every duration `d` from zero up to the largest `time.Duration`, let `M` be `d`
rounded to the nearest whole minute, halves rounded up.  Then `fmtSnapshotDuration d` is
exactly the parts that are not zero among `M / 10080` weeks, `M % 10080 / 1440` days,
`M % 1440 / 60` hours and `M % 60` minutes, each in decimal before its letter `w`, `d`, `h`,
`m`, in that order, joined by single spaces; it is the empty string when `M = 0`; the days
are below 7, the hours below 24, the minutes below 60, and the four parts add up to `M`. -/
theorem fmtSnapshotDuration_spec (d : Duration) (h0 : 0 ≤ d) (hmax : d ≤ maxDuration) :
    fmtSnapshotDuration d = renderDuration (roundedMinutes d)
      ∧ (roundedMinutes d = 0 → fmtSnapshotDuration d = "")
      ∧ roundedMinutes d % 10080 / 1440 < 7
      ∧ roundedMinutes d % 1440 / 60 < 24
      ∧ roundedMinutes d % 60 < 60
      ∧ 10080 * (roundedMinutes d / 10080) + 1440 * (roundedMinutes d % 10080 / 1440)
          + 60 * (roundedMinutes d % 1440 / 60) + roundedMinutes d % 60
        = roundedMinutes d := by
  refine ⟨fmtSnapshotDuration_eq_render d h0 hmax, ?_, by omega, by omega, by omega, by omega⟩
  intro hz
  rw [fmtSnapshotDuration_eq_render d h0 hmax, hz]
  decide

theorem fmtSnapshotDuration_spec_witness :
    (0 : Duration) ≤ 24 * 7 * 3 * Hour + 24 * 2 * Hour + Hour + 4 * Minute + 29 * Second
      ∧ 24 * 7 * 3 * Hour + 24 * 2 * Hour + Hour + 4 * Minute + 29 * Second ≤ maxDuration
      ∧ fmtSnapshotDuration (24 * 7 * 3 * Hour + 24 * 2 * Hour + Hour + 4 * Minute + 29 * Second)
          = "3w 2d 1h 4m"
      ∧ renderDuration
          (roundedMinutes (24 * 7 * 3 * Hour + 24 * 2 * Hour + Hour + 4 * Minute + 29 * Second))
          = "3w 2d 1h 4m" :=
  ⟨by decide, by decide,
    ((fmtSnapshotDuration_spec
      (24 * 7 * 3 * Hour + 24 * 2 * Hour + Hour + 4 * Minute + 29 * Second)
      (by decide) (by decide)).1).trans (by decide),
    by decide⟩

/-- C11, counterexample: called with the two names of 2021-03-11 and 2021-03-10, in this
order, and `count = 1`, `pickSnapshotsToDelete` returns normally, and afterwards the
caller's sequence holds the two names in the opposite order: `sort.Sort` has reordered it
in place. -/
theorem pick_reorders_callers_slice :
    pickSnapshotsToDelete ["p/d@p-d-20210311200500", "p/d@p-d-20210310200500"]
        (Date 2021 3 12 8 0 0) 1 0
      = .ok ⟨["p/d@p-d-20210310200500"],
             ["p/d@p-d-20210310200500", "p/d@p-d-20210311200500"]⟩
      ∧ ["p/d@p-d-20210310200500", "p/d@p-d-20210311200500"]
        ≠ ["p/d@p-d-20210311200500", "p/d@p-d-20210310200500"] := by
  decide

/-- C11 as amended: for every list of snapshot names, `now`, `count` and `ageLimit` for which
`pickSnapshotsToDelete` returns normally, afterwards the caller's sequence holds the same
names as before as a multiset; it holds them in the same order as before when `count ≤ 0`
and when the names were in ascending order already; when `count > 0` it holds them sorted
ascending. -/
theorem pick_callers_slice (snapshots : List String) (now : Time) (count : Int)
    (ageLimit : Duration) (p : Picked)
    (h : pickSnapshotsToDelete snapshots now count ageLimit = .ok p) :
    p.snapshots.Perm snapshots
      ∧ (count ≤ 0 → p.snapshots = snapshots)
      ∧ (List.Sorted strLE snapshots → p.snapshots = snapshots)
      ∧ (0 < count → p.snapshots = sortStrings snapshots ∧ List.Sorted strLE p.snapshots) := by
  have key : (¬ 0 < count ∧ p.snapshots = snapshots)
      ∨ (0 < count ∧ p.snapshots = sortStrings snapshots) := by
    unfold pickSnapshotsToDelete at h
    by_cases h0 : snapshots.length = 0
    · have e : snapshots = [] := List.length_eq_zero.mp h0
      subst e
      simp only [List.length_nil, if_true, Except.ok.injEq] at h
      subst h
      by_cases hc : 0 < count
      · exact Or.inr ⟨hc, rfl⟩
      · exact Or.inl ⟨hc, rfl⟩
    · by_cases hc : count > 0
      · simp only [h0, hc, if_true, if_false] at h
        split at h
        · exact absurd h (by simp)
        · simp only [Except.ok.injEq] at h
          subst h
          exact Or.inr ⟨hc, rfl⟩
      · left
        refine ⟨hc, ?_⟩
        simp only [h0, hc, if_false] at h
        split at h
        · simp only [Except.ok.injEq] at h
          subst h
          rfl
        · split at h <;>
          · simp only [Except.ok.injEq] at h
            subst h
            rfl
  rcases key with ⟨hc, e⟩ | ⟨hc, e⟩
  · rw [e]
    exact ⟨List.Perm.refl _, fun _ => rfl, fun _ => rfl, fun h' => absurd h' hc⟩
  · rw [e]
    exact ⟨sortStrings_perm _, fun h' => absurd hc (by omega),
      fun hs => sortStrings_of_sorted _ hs, fun _ => ⟨rfl, sortStrings_sorted _⟩⟩

theorem pick_callers_slice_witness :
    pickSnapshotsToDelete ["p/d@p-d-20210311200500", "p/d@p-d-20210310200500"]
        (Date 2021 3 12 8 0 0) 1 0
      = .ok ⟨["p/d@p-d-20210310200500"],
             ["p/d@p-d-20210310200500", "p/d@p-d-20210311200500"]⟩
      ∧ (["p/d@p-d-20210310200500", "p/d@p-d-20210311200500"] : List String).Perm
          ["p/d@p-d-20210311200500", "p/d@p-d-20210310200500"]
      ∧ ((1 : Int) ≤ 0 → ["p/d@p-d-20210310200500", "p/d@p-d-20210311200500"]
          = ["p/d@p-d-20210311200500", "p/d@p-d-20210310200500"])
      ∧ (List.Sorted strLE ["p/d@p-d-20210311200500", "p/d@p-d-20210310200500"]
          → ["p/d@p-d-20210310200500", "p/d@p-d-20210311200500"]
            = ["p/d@p-d-20210311200500", "p/d@p-d-20210310200500"])
      ∧ ((0 : Int) < 1 → ["p/d@p-d-20210310200500", "p/d@p-d-20210311200500"]
            = sortStrings ["p/d@p-d-20210311200500", "p/d@p-d-20210310200500"]
          ∧ List.Sorted strLE ["p/d@p-d-20210310200500", "p/d@p-d-20210311200500"]) :=
  ⟨by decide,
    pick_callers_slice ["p/d@p-d-20210311200500", "p/d@p-d-20210310200500"]
      (Date 2021 3 12 8 0 0) 1 0
      ⟨["p/d@p-d-20210310200500"], ["p/d@p-d-20210310200500", "p/d@p-d-20210311200500"]⟩
      (by decide)⟩

/-- C12, counterexample: for the key `p/d@p-d` and a listing of pool `p` with the names
`p/d@p-d-20210312080000` and `p/p/d@p-d-20210312080000` (a snapshot of the dataset `p/p/d`),
`GetSnapshotsWithKey` returns both names; the second does not have the key as a prefix, so
the names returned are not the listed names that have the key as a strict prefix. -/
theorem GetSnapshotsWithKey_returns_non_member :
    GetSnapshotsWithKey
        (fun _ => ⟨none, none, ["p/d@p-d-20210312080000", "p/p/d@p-d-20210312080000"], none⟩)
        "p" "p/d@p-d"
      = .ok ["p/d@p-d-20210312080000", "p/p/d@p-d-20210312080000"]
      ∧ ¬ StartsWithKey "p/d@p-d" "p/p/d@p-d-20210312080000"
      ∧ ["p/d@p-d-20210312080000", "p/p/d@p-d-20210312080000"].filter
          (fun s => decide (StartsWithKeyStrictly "p/d@p-d" s))
        = ["p/d@p-d-20210312080000"] := by
  decide

/-- C12 as amended: for every pool, every key and every sequence of names that the listing
command yields without error, `GetSnapshotsWithKey` returns, in listing order, exactly the
listed names in which the key occurs; in particular every listed name that has the key as
a prefix is returned. -/
theorem GetSnapshotsWithKey_eq_filter (zfsList : String → ZfsListRun) (pool key : String)
    (h1 : (zfsList pool).pipeErr = none) (h2 : (zfsList pool).startErr = none)
    (h3 : (zfsList pool).scanErr = none) :
    ∃ names, GetSnapshotsWithKey zfsList pool key = .ok names
      ∧ names = (zfsList pool).lines.filter (fun s => decide (KeyOccursIn key s))
      ∧ (∀ s ∈ (zfsList pool).lines, StartsWithKey key s → s ∈ names)
      ∧ (∀ s ∈ (zfsList pool).lines, StartsWithKeyStrictly key s → s ∈ names) := by
  have hp : ∀ s, StartsWithKey key s → KeyOccursIn key s := fun s h => List.IsPrefix.isInfix h
  refine ⟨_, ?_, rfl, ?_, ?_⟩
  · unfold GetSnapshotsWithKey
    simp only [h1, h2, h3, keyLoop_eq_filter, List.nil_append]
  · intro s hs hk
    exact List.mem_filter.mpr ⟨hs, by simpa using hp s hk⟩
  · intro s hs hk
    exact List.mem_filter.mpr ⟨hs, by simpa using hp s hk.1⟩

theorem GetSnapshotsWithKey_eq_filter_witness :
    (none : Option String) = none ∧ (none : Option String) = none
      ∧ (none : Option String) = none
      ∧ ∃ names, GetSnapshotsWithKey
            (fun _ => ⟨none, none, ["p/d@p-d-20210312080000", "p/e@p-e-20210312080000"], none⟩)
            "p" "p/d@p-d" = .ok names
          ∧ names = ["p/d@p-d-20210312080000", "p/e@p-e-20210312080000"].filter
              (fun s => decide (KeyOccursIn "p/d@p-d" s))
          ∧ (∀ s ∈ ["p/d@p-d-20210312080000", "p/e@p-e-20210312080000"],
              StartsWithKey "p/d@p-d" s → s ∈ names)
          ∧ (∀ s ∈ ["p/d@p-d-20210312080000", "p/e@p-e-20210312080000"],
              StartsWithKeyStrictly "p/d@p-d" s → s ∈ names) :=
  ⟨rfl, rfl, rfl,
    GetSnapshotsWithKey_eq_filter
      (fun _ => ⟨none, none, ["p/d@p-d-20210312080000", "p/e@p-e-20210312080000"], none⟩)
      "p" "p/d@p-d" rfl rfl rfl⟩

/-- C13, the code at two failing inputs, pool `p`, dataset `d`, no prefix, dry-run mode.
With the snapshot flag on, the legacy `takeSnapshot` returns no error, runs no command and
returns the key `p/d@p-ds`, with a letter `s` after the dataset name, where
`MakeSnapshotKey` gives `p/d@p-d`.  With the snapshot flag off it returns no error and the
empty string. -/
theorem legacy_takeSnapshot_key_differs :
    zfs.takeSnapshot ⟨true, true, true, true, "p", "d"⟩ "" (Date 2021 3 12 8 0 0) (fun _ => none)
      = ⟨"p/d@p-ds", none, []⟩
      ∧ zfs.takeSnapshot ⟨true, false, true, true, "p", "d"⟩ "" (Date 2021 3 12 8 0 0)
          (fun _ => none)
        = ⟨"", none, []⟩
      ∧ MakeSnapshotKey (NewDatasetID "p" "d") "" = "p/d@p-d" := by
  decide

end ZfsSnapshot
